import Mathlib

/-!
# Verification of the `ezlaptop` exam-scheduling core

This file is a shallow embedding, in Lean 4, of the scheduling logic of
`src/scheduler.py` (function `run_local_poc` and helper
`minutes_to_time_str`), together with theorems settling the frozen claims
about the natural-language specification of that program.

Modelling conventions, chosen once for the whole file:

* Calendar dates: the Python code stores dates as canonical ISO
  `YYYY-MM-DD` strings, compares them with `==`/`!=` for the same-day
  rules, with `datetime.date` order (after `strptime`) for the deadline
  and sequencing rules, and with string order when sorting the result.
  On canonical ISO strings all three agree with the day-ordinal order,
  so a date is embedded as an `Int` (days since an arbitrary epoch);
  `date - timedelta(days = n)` becomes integer subtraction.
* Minutes (`start_min`, `end_min`): non-negative integers in the data
  (minutes from midnight), embedded as `Nat`.  The `min_gap_minutes`
  field and `result_waiting_days` are arbitrary JSON integers, embedded
  as `Int`; the comparison `end_min + gap > start_min` is therefore done
  in `Int` as in Python.
* The CP-SAT solver is the external collaborator of §4.5 of the spec.
  It is embedded as a `SolverResponse` argument (a terminal status plus
  a boolean assignment of the decision variables, keyed by slot id),
  constrained by the contract predicate `SolverOk`: an `optimal` answer
  is feasible and objective-minimal, a `feasible` answer is feasible, an
  `infeasible` answer may only be given when no feasible assignment
  exists, and `unknown` carries no guarantee.
* The `day_used` variables are pinned by `AddMaxEquality` to the OR of
  the choice variables of their date, so in every solution they are the
  function `dayUsedB` of the choice assignment, and the minimized
  objective is `objectiveValue` as a function of the assignment alone.
  The slot lookup `next(item for item in all_slots if item['id'] == s_id)`
  resolves to the slot itself whenever slot ids are unique, which the
  spec states as a catalog invariant ("identifier (unique, stable)").
* The Python code reports its outcome by printing one of four distinct
  shapes of message and returning `None`; the observable outcome is
  embedded as the inductive `Outcome` (one constructor per message
  shape).  `list.sort(key=lambda x: (x['Date'], x['Start']))` is a
  stable sort by the string pair; it is embedded as an insertion sort by
  the corresponding key order (no claim depends on tie-breaking among
  entries with equal key).
-/

namespace EzLaptop

/-- Embedding of `f"{n:02d}"` of `scheduler.py` for a natural number: the decimal
representation, left-padded with `0` to at least two characters. -/
def pad2 (n : Nat) : String :=
  let s := toString n
  if s.length < 2 then "0" ++ s else s

/-- Function `minutes_to_time_str` from `src/scheduler.py` (lines 19-28) and,
identically, `src/generate_slots.py` (lines 5-9): render a number of
minutes as `HH:MM` with each field zero-padded to two digits. -/
def minutes_to_time_str (minutes : Nat) : String :=
  pad2 (minutes / 60) ++ ":" ++ pad2 (minutes % 60)

/-- One bookable interval of the slot catalog (`slots_data.json`):
id, exam type, date, start/end offsets in minutes, availability flag. -/
structure Slot where
  id : Nat
  exam : String
  date : Int
  start_min : Nat
  end_min : Nat
  is_available : Bool
deriving DecidableEq, Repr

/-- One `sequence_and_gap` rule of `constraints.json`. -/
structure SeqGapRule where
  pre : String
  post : String
  min_gap_minutes : Int
deriving DecidableEq, Repr

/-- The rule set of `constraints.json`: the global waiting period plus
the three constraint categories. -/
structure Rules where
  result_waiting_days : Int
  cannot_same_day : List (String × String)
  must_same_day : List (List String)
  sequence_and_gap : List SeqGapRule
deriving Repr

/-- The candidate filter of `run_local_poc` (lines 65-70): keep a slot
iff its date is on or before the deadline and its exam is required. -/
def validSlots (slots : List Slot) (req : List String) (deadline : Int) : List Slot :=
  slots.filter fun s => decide (s.date ≤ deadline) && req.contains s.exam

/-- Embedding of `exam_slots_map[e]` of `run_local_poc` (lines 87-96): the candidate
slots of one exam type, in catalog order. -/
def examSlots (vs : List Slot) (e : String) : List Slot :=
  vs.filter fun s => s.exam == e

/-- Constraint (1) of `run_local_poc` (lines 98-107): for every required
exam, exactly one of its candidate slots is chosen. -/
def exactlyOneB (vs : List Slot) (req : List String) (sel : Nat → Bool) : Bool :=
  req.all fun e => (examSlots vs e).countP (fun s => sel s.id) == 1

/-- Constraint (2a) of `run_local_poc` (lines 111-119), `cannot_same_day`:
for each rule pair with both exams required, two candidate slots on the
same date are never chosen together. -/
def cannotSameDayB (vs : List Slot) (rules : Rules) (req : List String) (sel : Nat → Bool) : Bool :=
  rules.cannot_same_day.all fun p =>
    if req.contains p.1 && req.contains p.2 then
      (examSlots vs p.1).all fun s1 =>
        (examSlots vs p.2).all fun s2 =>
          if s1.date == s2.date then !(sel s1.id && sel s2.id) else true
    else true

/-- Constraint (2b) of `run_local_poc` (lines 123-134), `must_same_day`:
for each group, restricted to the required members, if at least two
remain then the first member may never be chosen on a date differing
from any other member's chosen date. -/
def mustSameDayB (vs : List Slot) (rules : Rules) (req : List String) (sel : Nat → Bool) : Bool :=
  rules.must_same_day.all fun group =>
    match group.filter (fun e => req.contains e) with
    | ex1 :: ex2 :: rest =>
      (ex2 :: rest).all fun exB =>
        (examSlots vs ex1).all fun s1 =>
          (examSlots vs exB).all fun s2 =>
            if s1.date != s2.date then !(sel s1.id && sel s2.id) else true
    | _ => true

/-- Constraint (2c) of `run_local_poc` (lines 137-158), `sequence_and_gap`:
for each rule with both exams required and each (predecessor, successor)
slot pair, forbid the pair when they share a date and the gap is not
met, and forbid the pair when the predecessor's date is later. -/
def seqGapB (vs : List Slot) (rules : Rules) (req : List String) (sel : Nat → Bool) : Bool :=
  rules.sequence_and_gap.all fun r =>
    if req.contains r.pre && req.contains r.post then
      (examSlots vs r.pre).all fun ps =>
        (examSlots vs r.post).all fun qs =>
          (if ps.date == qs.date then
            (if decide ((ps.end_min : Int) + r.min_gap_minutes > (qs.start_min : Int)) then
              !(sel ps.id && sel qs.id)
            else true)
          else true) &&
          (if decide (ps.date > qs.date) then !(sel ps.id && sel qs.id) else true)
    else true

/-- The whole constraint set built by `run_local_poc` over the decision
variables (one boolean per candidate slot, keyed by slot id). -/
def feasibleB (vs : List Slot) (rules : Rules) (req : List String) (sel : Nat → Bool) : Bool :=
  exactlyOneB vs req sel && cannotSameDayB vs rules req sel &&
    mustSameDayB vs rules req sel && seqGapB vs rules req sel

/-- An assignment satisfies the model built by `run_local_poc`. -/
def Feasible (vs : List Slot) (rules : Rules) (req : List String) (sel : Nat → Bool) : Prop :=
  feasibleB vs rules req sel = true

instance (vs : List Slot) (rules : Rules) (req : List String) (sel : Nat → Bool) :
    Decidable (Feasible vs rules req sel) :=
  inferInstanceAs (Decidable (_ = true))

/-- Embedding of `all_dates` of `run_local_poc` (line 165): the distinct dates of the
candidate slots, sorted. -/
def allDates (vs : List Slot) : List Int :=
  ((vs.map (fun s => s.date)).dedup).insertionSort fun a b => a ≤ b

/-- The value `AddMaxEquality` forces on `day_used_{d}` (lines 168-176):
true iff some chosen candidate slot falls on date `d`. -/
def dayUsedB (vs : List Slot) (sel : Nat → Bool) (d : Int) : Bool :=
  vs.any fun s => s.date == d && sel s.id

/-- The objective of `run_local_poc` (line 179): the number of distinct
candidate dates on which some chosen slot falls. -/
def objectiveValue (vs : List Slot) (sel : Nat → Bool) : Nat :=
  ((allDates vs).filter (dayUsedB vs sel)).length

/-- One record of `result_schedule` (lines 199-204): exam type, date,
and the rendered start and end times. -/
structure Entry where
  Exam : String
  Date : Int
  Start : String
  End : String
deriving DecidableEq, Repr

/-- How one chosen slot is turned into a schedule record (lines 199-204). -/
def mkEntry (s : Slot) : Entry :=
  ⟨s.exam, s.date, minutes_to_time_str s.start_min, minutes_to_time_str s.end_min⟩

/-- Lexicographic `≤` on lists of characters, by code point: the order
Python uses to compare the `Start` strings inside the sort key. -/
def charListLeB : List Char → List Char → Bool
  | [], _ => true
  | _ :: _, [] => false
  | a :: as, b :: bs => if a = b then charListLeB as bs else decide (a < b)

/-- The sort-key order of line 207, `key=lambda x: (x['Date'], x['Start'])`:
first by date, then by the rendered start-time string. -/
def entryRel (e1 e2 : Entry) : Prop :=
  e1.Date < e2.Date ∨ (e1.Date = e2.Date ∧ charListLeB e1.Start.data e2.Start.data = true)

instance : DecidableRel entryRel := fun e1 e2 => by
  unfold entryRel; infer_instance

/-- The schedule records of the chosen slots, in catalog order
(lines 193-204). -/
def rawSchedule (vs : List Slot) (sel : Nat → Bool) : List Entry :=
  (vs.filter fun s => sel s.id).map mkEntry

/-- Embedding of `result_schedule` after the sort of line 207. -/
def result_schedule (vs : List Slot) (sel : Nat → Bool) : List Entry :=
  (rawSchedule vs sel).insertionSort entryRel

/-- The terminal statuses of the external CP-SAT solver (§4.5 of the
spec): `OPTIMAL`, `FEASIBLE`, `INFEASIBLE`, `UNKNOWN`. -/
inductive SolverStatus where
  | optimal : SolverStatus
  | feasible : SolverStatus
  | infeasible : SolverStatus
  | unknown : SolverStatus
deriving DecidableEq, Repr

/-- What `solver.Solve(model)` hands back: a status and the value of
each decision variable, keyed by the slot id of the variable. -/
structure SolverResponse where
  status : SolverStatus
  sel : Nat → Bool

/-- The solver-invocation contract of §4.5: `OPTIMAL` answers are
feasible and objective-minimal, `FEASIBLE` answers are feasible,
`INFEASIBLE` is only reported when no feasible assignment exists, and
`UNKNOWN` carries no guarantee. -/
def SolverOk (vs : List Slot) (rules : Rules) (req : List String) : SolverResponse → Prop
  | ⟨.optimal, sel⟩ =>
      Feasible vs rules req sel ∧
        ∀ sel', Feasible vs rules req sel' → objectiveValue vs sel ≤ objectiveValue vs sel'
  | ⟨.feasible, sel⟩ => Feasible vs rules req sel
  | ⟨.infeasible, _⟩ => ∀ sel', ¬ Feasible vs rules req sel'
  | ⟨.unknown, _⟩ => True

/-- The observable outcome of one `run_local_poc` call: the function
itself always returns `None`, so the outcome is the shape of what it
reports — the no-candidate message (line 73), the per-exam error
message (line 102), the success report with objective and sorted
schedule (lines 190-210), or the single generic failure message printed
for every non-success solver status (line 214). -/
inductive Outcome where
  | noCandidateSlotsMsg : Outcome
  | examErrorMsg : String → Outcome
  | successMsg : Nat → List Entry → Outcome
  | solverFailMsg : Outcome
deriving DecidableEq, Repr

/-- The first required exam with no candidate slot, if any: the loop of
lines 99-103 returns at the first such exam. -/
def firstEmptyExam (vs : List Slot) (req : List String) : Option String :=
  req.find? fun e => (examSlots vs e).isEmpty

/-- Embedding of `run_local_poc` of `src/scheduler.py`, as a function of its inputs
(slot catalog, rule set, required exams, next appointment date) and of
the external solver's response. -/
def run_local_poc (slots : List Slot) (rules : Rules) (req : List String)
    (next_appointment_date : Int) (resp : SolverResponse) : Outcome :=
  let deadline := next_appointment_date - rules.result_waiting_days
  let vs := validSlots slots req deadline
  if vs.isEmpty then .noCandidateSlotsMsg
  else
    match firstEmptyExam vs req with
    | some e => .examErrorMsg e
    | none =>
      match resp.status with
      | .optimal => .successMsg (objectiveValue vs resp.sel) (result_schedule vs resp.sel)
      | .feasible => .successMsg (objectiveValue vs resp.sel) (result_schedule vs resp.sel)
      | .infeasible => .solverFailMsg
      | .unknown => .solverFailMsg

/-- The candidate filter exactly as §4.1 of the spec words it: keep
every slot whose exam type is in the required set and whose date is on
or before `deadline = next_appointment_date − result_waiting_days`. -/
def candidateFilterSpec (slots : List Slot) (req : List String)
    (next_appointment_date result_waiting_days : Int) : List Slot :=
  slots.filter fun s =>
    decide (s.exam ∈ req ∧ s.date ≤ next_appointment_date - result_waiting_days)

/-! ## Concrete scheduling instances

Small closed instances used below to evaluate the embedded program:
`w…` is a feasible three-exam request exercising all three rule
categories, and the `c…` families are the inputs of the
counterexamples. -/

def wSlots : List Slot :=
  [⟨1, "A", 10, 540, 570, true⟩, ⟨2, "B", 10, 600, 660, true⟩, ⟨3, "C", 11, 540, 570, true⟩]

def wRules : Rules := ⟨2, [("A", "C")], [["A", "B"]], [⟨"A", "B", 30⟩]⟩

def wReq : List String := ["A", "B", "C"]

def wResp : SolverResponse := ⟨.feasible, fun i => i == 1 || i == 2 || i == 3⟩

/-- The schedule the three-exam instance produces. -/
def wSched : List Entry :=
  [⟨"A", 10, "09:00", "09:30"⟩, ⟨"B", 10, "10:00", "11:00"⟩, ⟨"C", 11, "09:00", "09:30"⟩]

def c1Slots : List Slot := [⟨1, "A", 0, 540, 570, false⟩]

def c1Rules : Rules := ⟨0, [], [], []⟩

def c1Resp : SolverResponse := ⟨.feasible, fun i => i == 1⟩

def c2Slots : List Slot :=
  [⟨1, "A", 0, 540, 570, true⟩, ⟨2, "B", 0, 600, 630, true⟩, ⟨3, "B", 1, 600, 630, true⟩]

def c2Rules : Rules := ⟨0, [], [], []⟩

def c2Resp : SolverResponse := ⟨.feasible, fun i => i == 1 || i == 3⟩

def c2Alt : Nat → Bool := fun i => i == 1 || i == 2

def c3Slots : List Slot :=
  [⟨1, "A", 5, 540, 600, true⟩, ⟨2, "B", 6, 540, 570, true⟩]

def c3Rules : Rules := ⟨0, [], [], [⟨"A", "B", 120⟩]⟩

def c3Resp : SolverResponse := ⟨.feasible, fun i => i == 1 || i == 2⟩

def c7Slots : List Slot := [⟨1, "B", 0, 0, 10, true⟩]

def c7Rules : Rules := ⟨0, [], [], []⟩

def c7Resp : SolverResponse := ⟨.unknown, fun _ => false⟩

def c7bSlots : List Slot := [⟨1, "A", 0, 540, 570, true⟩]

def c7bReq : List String := ["A", "B"]

def c8Slots : List Slot :=
  [⟨1, "A", 0, 540, 570, true⟩, ⟨2, "B", 0, 600, 630, true⟩]

def c8Rules : Rules := ⟨0, [("A", "B")], [], []⟩

def c8Req : List String := ["A", "B"]

def c8RespInf : SolverResponse := ⟨.infeasible, fun _ => false⟩

def c8RespUnk : SolverResponse := ⟨.unknown, fun _ => false⟩

/-! ## Helper lemmas about the embedded definitions -/

theorem mem_examSlots {vs : List Slot} {e : String} {t : Slot} :
    t ∈ examSlots vs e ↔ t ∈ vs ∧ t.exam = e := by
  simp [examSlots, List.mem_filter]

theorem mem_validSlots {slots : List Slot} {req : List String} {d : Int} {s : Slot} :
    s ∈ validSlots slots req d ↔ s ∈ slots ∧ s.date ≤ d ∧ s.exam ∈ req := by
  simp [validSlots, List.mem_filter, List.contains, List.elem_iff, and_assoc]

theorem feasible_parts {vs : List Slot} {rules : Rules} {req : List String} {sel : Nat → Bool}
    (hf : Feasible vs rules req sel) :
    exactlyOneB vs req sel = true ∧ cannotSameDayB vs rules req sel = true ∧
      mustSameDayB vs rules req sel = true ∧ seqGapB vs rules req sel = true := by
  simpa [Feasible, feasibleB, Bool.and_eq_true, and_assoc] using hf

/-- The per-exam exactly-one constraint forces a unique chosen candidate
slot for every required exam type. -/
theorem exactlyOne_unique {vs : List Slot} {rules : Rules} {req : List String}
    {sel : Nat → Bool} {e : String} (hf : Feasible vs rules req sel) (he : e ∈ req) :
    ∃ s, (s ∈ vs ∧ s.exam = e ∧ sel s.id = true) ∧
      ∀ t, t ∈ vs → t.exam = e → sel t.id = true → t = s := by
  have h1 := (feasible_parts hf).1
  have h2 := List.all_eq_true.mp h1 e he
  have h3 : (examSlots vs e).countP (fun s => sel s.id) = 1 := by
    simpa using h2
  rw [List.countP_eq_length_filter] at h3
  obtain ⟨a, ha⟩ := List.length_eq_one.mp h3
  have hmem : ∀ t : Slot, t ∈ (examSlots vs e).filter (fun s => sel s.id) ↔
      (t ∈ vs ∧ t.exam = e) ∧ sel t.id = true := by
    intro t
    rw [List.mem_filter, mem_examSlots]
  refine ⟨a, ?_, ?_⟩
  · have : a ∈ (examSlots vs e).filter (fun s => sel s.id) := by
      rw [ha]; exact List.mem_singleton_self a
    rcases (hmem a).mp this with ⟨⟨hv, hx⟩, hs⟩
    exact ⟨hv, hx, hs⟩
  · intro t htv htx hts
    have : t ∈ (examSlots vs e).filter (fun s => sel s.id) :=
      (hmem t).mpr ⟨⟨htv, htx⟩, hts⟩
    rw [ha] at this
    exact List.mem_singleton.mp this

/-- Extraction of the `cannot_same_day` constraints from feasibility. -/
theorem cannot_of_feasible {vs : List Slot} {rules : Rules} {req : List String}
    {sel : Nat → Bool} (hf : Feasible vs rules req sel) :
    ∀ p ∈ rules.cannot_same_day, p.1 ∈ req → p.2 ∈ req →
      ∀ s1 ∈ examSlots vs p.1, ∀ s2 ∈ examSlots vs p.2,
        s1.date = s2.date → ¬(sel s1.id = true ∧ sel s2.id = true) := by
  have h := (feasible_parts hf).2.1
  intro p hp hm1 hm2 s1 hs1 s2 hs2 hdate ⟨hc1, hc2⟩
  have hp' := List.all_eq_true.mp h p hp
  rw [if_pos (by simp [List.contains, List.elem_iff, hm1, hm2])] at hp'
  have hp'' := List.all_eq_true.mp (List.all_eq_true.mp hp' s1 hs1) s2 hs2
  rw [if_pos (by simp [hdate])] at hp''
  simp [hc1, hc2] at hp''

/-- Extraction of the `must_same_day` constraints from feasibility: every
non-reference required member of a group is chosen on the same date as
the reference (first) required member. -/
theorem must_of_feasible {vs : List Slot} {rules : Rules} {req : List String}
    {sel : Nat → Bool} (hf : Feasible vs rules req sel) :
    ∀ g ∈ rules.must_same_day, ∀ ex1 ex2 rest,
      g.filter (fun e => req.contains e) = ex1 :: ex2 :: rest →
      ∀ exB ∈ ex2 :: rest, ∀ s1 ∈ examSlots vs ex1, ∀ s2 ∈ examSlots vs exB,
        sel s1.id = true → sel s2.id = true → s1.date = s2.date := by
  have h := (feasible_parts hf).2.2.1
  intro g hg ex1 ex2 rest hsplit exB hB s1 hs1 s2 hs2 hc1 hc2
  have hg' := List.all_eq_true.mp h g hg
  rw [hsplit] at hg'
  have hg'' := List.all_eq_true.mp
    (List.all_eq_true.mp (List.all_eq_true.mp hg' exB hB) s1 hs1) s2 hs2
  by_contra hne
  rw [if_pos (by simp [hne])] at hg''
  simp [hc1, hc2] at hg''

/-- Extraction of the `sequence_and_gap` constraints from feasibility:
chosen slots of a required (predecessor, successor) pair respect the
same-day gap and the date order. -/
theorem seqGap_of_feasible {vs : List Slot} {rules : Rules} {req : List String}
    {sel : Nat → Bool} (hf : Feasible vs rules req sel) :
    ∀ r ∈ rules.sequence_and_gap, r.pre ∈ req → r.post ∈ req →
      ∀ ps ∈ examSlots vs r.pre, ∀ qs ∈ examSlots vs r.post,
        sel ps.id = true → sel qs.id = true →
          (ps.date = qs.date → (ps.end_min : Int) + r.min_gap_minutes ≤ (qs.start_min : Int)) ∧
            ps.date ≤ qs.date := by
  have h := (feasible_parts hf).2.2.2
  intro r hr hm1 hm2 ps hps qs hqs hc1 hc2
  have hr' := List.all_eq_true.mp h r hr
  rw [if_pos (by simp [List.contains, List.elem_iff, hm1, hm2])] at hr'
  have hr'' := List.all_eq_true.mp (List.all_eq_true.mp hr' ps hps) qs hqs
  rw [Bool.and_eq_true] at hr''
  constructor
  · intro hdate
    have h1 := hr''.1
    rw [if_pos (by simp [hdate])] at h1
    by_contra hgap
    rw [if_pos (by simpa using Int.lt_of_not_ge hgap)] at h1
    simp [hc1, hc2] at h1
  · by_contra hord
    have h2 := hr''.2
    rw [if_pos (by simpa using Int.lt_of_not_ge hord)] at h2
    simp [hc1, hc2] at h2

/-- Membership in the produced schedule: an entry is exactly the record
of a chosen candidate slot. -/
theorem mem_result_schedule {vs : List Slot} {sel : Nat → Bool} {en : Entry} :
    en ∈ result_schedule vs sel ↔ ∃ s, s ∈ vs ∧ sel s.id = true ∧ en = mkEntry s := by
  unfold result_schedule rawSchedule
  rw [List.mem_insertionSort]
  simp only [List.mem_map, List.mem_filter]
  constructor
  · rintro ⟨s, ⟨hv, hs⟩, hen⟩
    exact ⟨s, hv, hs, hen.symm⟩
  · rintro ⟨s, hv, hs, hen⟩
    exact ⟨s, ⟨hv, hs⟩, hen.symm⟩

/-- Counting schedule entries of one exam type counts the chosen
candidate slots of that exam type. -/
theorem countP_result_schedule (vs : List Slot) (sel : Nat → Bool) (e : String) :
    (result_schedule vs sel).countP (fun en => en.Exam == e) =
      (examSlots vs e).countP (fun s => sel s.id) := by
  unfold result_schedule rawSchedule examSlots
  rw [(List.perm_insertionSort entryRel _).countP_eq, List.countP_map,
    List.countP_filter, List.countP_filter]
  apply List.countP_congr
  intro s _
  show (s.exam == e && sel s.id) = true ↔ (sel s.id && (s.exam == e)) = true
  rw [Bool.and_comm]

theorem mem_allDates {vs : List Slot} {x : Int} :
    x ∈ allDates vs ↔ ∃ s ∈ vs, s.date = x := by
  simp [allDates, List.mem_insertionSort, List.mem_dedup]

theorem nodup_allDates (vs : List Slot) : (allDates vs).Nodup :=
  ((List.perm_insertionSort _ _).nodup_iff).mpr (List.nodup_dedup _)

theorem dayUsedB_iff {vs : List Slot} {sel : Nat → Bool} {d : Int} :
    dayUsedB vs sel d = true ↔ ∃ s ∈ vs, s.date = d ∧ sel s.id = true := by
  simp [dayUsedB, List.any_eq_true]

/-- The objective value of an assignment is the number of distinct dates
among the schedule entries it produces. -/
theorem objective_eq_distinct_dates (vs : List Slot) (sel : Nat → Bool) :
    objectiveValue vs sel =
      ((result_schedule vs sel).map (fun en => en.Date)).dedup.length := by
  have h1 : ((allDates vs).filter (dayUsedB vs sel)).Nodup :=
    (nodup_allDates vs).filter _
  have h2 : (((result_schedule vs sel).map (fun en => en.Date)).dedup).Nodup :=
    List.nodup_dedup _
  rw [objectiveValue, ← List.toFinset_card_of_nodup h1, ← List.toFinset_card_of_nodup h2]
  congr 1
  apply List.toFinset.ext
  intro x
  simp only [List.mem_filter, mem_allDates, dayUsedB_iff, List.mem_dedup, List.mem_map,
    mem_result_schedule]
  constructor
  · rintro ⟨-, s, hv, hd, hsel⟩
    exact ⟨mkEntry s, ⟨s, hv, hsel, rfl⟩, hd⟩
  · rintro ⟨en, ⟨s, hv, hsel, rfl⟩, hd⟩
    exact ⟨⟨s, hv, hd⟩, s, hv, hd, hsel⟩

set_option maxHeartbeats 1000000 in
/-- For numbers below 100 the zero-padded rendering is the two decimal
digit characters. -/
theorem pad2_digits : ∀ n : Nat, n < 100 →
    (pad2 n).data = [Nat.digitChar (n / 10), Nat.digitChar (n % 10)] := by decide

theorem digitChar_lt_iff : ∀ a : Nat, a < 10 → ∀ b : Nat, b < 10 →
    (Nat.digitChar a < Nat.digitChar b ↔ a < b) := by decide

theorem digitChar_inj : ∀ a : Nat, a < 10 → ∀ b : Nat, b < 10 →
    (Nat.digitChar a = Nat.digitChar b ↔ a = b) := by decide

theorem charListLeB_total : ∀ l1 l2 : List Char,
    charListLeB l1 l2 = true ∨ charListLeB l2 l1 = true
  | [], _ => Or.inl rfl
  | _ :: _, [] => Or.inr rfl
  | a :: as, b :: bs => by
    by_cases hab : a = b
    · subst hab
      simpa [charListLeB] using charListLeB_total as bs
    · rcases lt_or_gt_of_ne hab with h | h
      · exact Or.inl (by simp [charListLeB, hab, h])
      · exact Or.inr (by simp [charListLeB, Ne.symm hab, h])

theorem charListLeB_trans : ∀ l1 l2 l3 : List Char,
    charListLeB l1 l2 = true → charListLeB l2 l3 = true → charListLeB l1 l3 = true
  | [], _, _ => fun _ _ => rfl
  | _ :: _, [], _ => fun h _ => by simp [charListLeB] at h
  | _ :: _, _ :: _, [] => fun _ h => by simp [charListLeB] at h
  | a :: as, b :: bs, c :: cs => fun h1 h2 => by
    by_cases hab : a = b <;> by_cases hbc : b = c
    · subst hab; subst hbc
      simp only [charListLeB, if_pos rfl] at h1 h2 ⊢
      exact charListLeB_trans as bs cs h1 h2
    · subst hab
      simp only [charListLeB, if_neg hbc] at h2
      have hlt : a < c := by simpa using h2
      simp [charListLeB, ne_of_lt hlt, hlt]
    · subst hbc
      simp only [charListLeB, if_neg hab] at h1
      have hlt : a < b := by simpa using h1
      simp [charListLeB, ne_of_lt hlt, hlt]
    · simp only [charListLeB, if_neg hab] at h1
      simp only [charListLeB, if_neg hbc] at h2
      have hlt : a < c := lt_trans (by simpa using h1) (by simpa using h2)
      simp [charListLeB, ne_of_lt hlt, hlt]

theorem entryRel_total (e1 e2 : Entry) : entryRel e1 e2 ∨ entryRel e2 e1 := by
  unfold entryRel
  rcases lt_trichotomy e1.Date e2.Date with h | h | h
  · exact Or.inl (Or.inl h)
  · rcases charListLeB_total e1.Start.data e2.Start.data with hc | hc
    · exact Or.inl (Or.inr ⟨h, hc⟩)
    · exact Or.inr (Or.inr ⟨h.symm, hc⟩)
  · exact Or.inr (Or.inl h)

theorem entryRel_trans {e1 e2 e3 : Entry} (h12 : entryRel e1 e2) (h23 : entryRel e2 e3) :
    entryRel e1 e3 := by
  unfold entryRel at h12 h23 ⊢
  rcases h12 with h | ⟨hd, hs⟩ <;> rcases h23 with h' | ⟨hd', hs'⟩
  · exact Or.inl (h.trans h')
  · exact Or.inl (hd' ▸ h)
  · exact Or.inl (hd ▸ h')
  · exact Or.inr ⟨hd.trans hd', charListLeB_trans _ _ _ hs hs'⟩

/-- The produced schedule list is sorted by the sort key of line 207. -/
theorem result_schedule_sorted (vs : List Slot) (sel : Nat → Bool) :
    List.Sorted entryRel (result_schedule vs sel) := by
  haveI : IsTotal Entry entryRel := ⟨entryRel_total⟩
  haveI : IsTrans Entry entryRel := ⟨fun _ _ _ => entryRel_trans⟩
  exact List.sorted_insertionSort entryRel _

/-- Character-level shape of a rendered time below 100 hours. -/
theorem mtts_data (m : Nat) (hm : m < 6000) :
    (minutes_to_time_str m).data =
      [Nat.digitChar (m / 60 / 10), Nat.digitChar (m / 60 % 10), ':',
        Nat.digitChar (m % 60 / 10), Nat.digitChar (m % 60 % 10)] := by
  have h1 : m / 60 < 100 := by omega
  have h2 : m % 60 < 100 := by omega
  show (pad2 (m / 60) ++ ":" ++ pad2 (m % 60)).data = _
  rw [String.data_append, String.data_append, pad2_digits _ h1, pad2_digits _ h2]
  rfl

/-- Lexicographic comparison of two five-character `HH:MM` renderings,
in terms of the digits. -/
theorem charListLeB_digits (p q r s p' q' r' s' : Nat)
    (hp : p < 10) (hq : q < 10) (hr : r < 10) (hs : s < 10)
    (hp' : p' < 10) (hq' : q' < 10) (hr' : r' < 10) (hs' : s' < 10) :
    (charListLeB
        [Nat.digitChar p, Nat.digitChar q, ':', Nat.digitChar r, Nat.digitChar s]
        [Nat.digitChar p', Nat.digitChar q', ':', Nat.digitChar r', Nat.digitChar s']
      = true) ↔
      (p < p' ∨ (p = p' ∧ (q < q' ∨ (q = q' ∧
        (r < r' ∨ (r = r' ∧ (s < s' ∨ s = s'))))))) := by
  by_cases hpp : p = p'
  · subst hpp
    simp only [charListLeB, if_pos rfl]
    by_cases hqq : q = q'
    · subst hqq
      simp only [if_pos rfl]
      by_cases hrr : r = r'
      · subst hrr
        simp only [if_pos rfl]
        by_cases hss : s = s'
        · subst hss
          simp [lt_irrefl]
        · rw [if_neg ((not_congr (digitChar_inj s hs s' hs')).mpr hss)]
          simp [lt_irrefl, digitChar_lt_iff s hs s' hs', hss]
      · rw [if_neg ((not_congr (digitChar_inj r hr r' hr')).mpr hrr)]
        simp [lt_irrefl, digitChar_lt_iff r hr r' hr', hrr]
    · rw [if_neg ((not_congr (digitChar_inj q hq q' hq')).mpr hqq)]
      simp [lt_irrefl, digitChar_lt_iff q hq q' hq', hqq]
  · simp only [charListLeB]
    rw [if_neg ((not_congr (digitChar_inj p hp p' hp')).mpr hpp)]
    simp [digitChar_lt_iff p hp p' hp', hpp]

/-- The rendered `HH:MM` strings (below 100 hours) compare, by code
points, exactly as the minute values: string order is chronological. -/
theorem charListLeB_mtts_iff (a b : Nat) (ha : a < 6000) (hb : b < 6000) :
    (charListLeB (minutes_to_time_str a).data (minutes_to_time_str b).data = true ↔ a ≤ b) := by
  rw [mtts_data a ha, mtts_data b hb,
    charListLeB_digits _ _ _ _ _ _ _ _ (by omega) (by omega) (by omega) (by omega)
      (by omega) (by omega) (by omega) (by omega)]
  omega

/-- A solver response with a success status is feasible whenever the
solver respected its contract. -/
theorem solverOk_feasible {vs : List Slot} {rules : Rules} {req : List String}
    {resp : SolverResponse} (hok : SolverOk vs rules req resp)
    (hs : resp.status = .optimal ∨ resp.status = .feasible) :
    Feasible vs rules req resp.sel := by
  obtain ⟨st, sel⟩ := resp
  cases st with
  | optimal => exact hok.1
  | feasible => exact hok
  | infeasible => simp at hs
  | unknown => simp at hs

/-- Inversion of a successful run: the solver status was a success
status, the reported objective is `objectiveValue`, the reported
schedule is `result_schedule`, and every required exam had candidates. -/
theorem run_success_inv {slots : List Slot} {rules : Rules} {req : List String}
    {next : Int} {resp : SolverResponse} {obj : Nat} {sched : List Entry}
    (h : run_local_poc slots rules req next resp = .successMsg obj sched) :
    (resp.status = .optimal ∨ resp.status = .feasible) ∧
      obj = objectiveValue (validSlots slots req (next - rules.result_waiting_days)) resp.sel ∧
      sched = result_schedule (validSlots slots req (next - rules.result_waiting_days)) resp.sel ∧
      firstEmptyExam (validSlots slots req (next - rules.result_waiting_days)) req = none := by
  obtain ⟨st, sel⟩ := resp
  cases st with
  | optimal =>
    dsimp only [run_local_poc] at h ⊢
    split at h
    · exact absurd h (by simp)
    · split at h
      · exact absurd h (by simp)
      · rename_i hnone
        injection h with h1 h2
        exact ⟨Or.inl rfl, h1.symm, h2.symm, hnone⟩
  | feasible =>
    dsimp only [run_local_poc] at h ⊢
    split at h
    · exact absurd h (by simp)
    · split at h
      · exact absurd h (by simp)
      · rename_i hnone
        injection h with h1 h2
        exact ⟨Or.inr rfl, h1.symm, h2.symm, hnone⟩
  | infeasible =>
    dsimp only [run_local_poc] at h
    split at h
    · exact absurd h (by simp)
    · split at h
      · exact absurd h (by simp)
      · exact absurd h (by simp)
  | unknown =>
    dsimp only [run_local_poc] at h
    split at h
    · exact absurd h (by simp)
    · split at h
      · exact absurd h (by simp)
      · exact absurd h (by simp)

/-- When the candidate filter returns nothing, the run reports the
no-candidate message whatever the solver would have said. -/
theorem run_noCandidates {slots : List Slot} {rules : Rules} {req : List String}
    {next : Int} (resp : SolverResponse)
    (hv : validSlots slots req (next - rules.result_waiting_days) = []) :
    run_local_poc slots rules req next resp = .noCandidateSlotsMsg := by
  unfold run_local_poc
  rw [if_pos (by simp [hv])]

/-- When candidates exist but some required exam has none, the run
reports the per-exam error of the first such exam, whatever the solver
would have said. -/
theorem run_of_firstEmpty {slots : List Slot} {rules : Rules} {req : List String}
    {next : Int} {e0 : String}
    (hne : validSlots slots req (next - rules.result_waiting_days) ≠ [])
    (hfind : firstEmptyExam (validSlots slots req (next - rules.result_waiting_days)) req
      = some e0)
    (resp : SolverResponse) :
    run_local_poc slots rules req next resp = .examErrorMsg e0 := by
  unfold run_local_poc
  rw [if_neg (by simp [hne]), hfind]

/-- Both non-success solver statuses lead to the same single generic
failure message. -/
theorem run_solverFail {slots : List Slot} {rules : Rules} {req : List String}
    {next : Int} {resp : SolverResponse}
    (hne : validSlots slots req (next - rules.result_waiting_days) ≠ [])
    (hnone : firstEmptyExam (validSlots slots req (next - rules.result_waiting_days)) req
      = none)
    (hs : resp.status = .infeasible ∨ resp.status = .unknown) :
    run_local_poc slots rules req next resp = .solverFailMsg := by
  obtain ⟨st, sel⟩ := resp
  rcases hs with hs | hs <;> cases hs <;>
    · unfold run_local_poc
      rw [if_neg (by simp [hne]), hnone]

/-- A successful status leads to the success report. -/
theorem run_success_eq {slots : List Slot} {rules : Rules} {req : List String}
    {next : Int} {resp : SolverResponse}
    (hne : validSlots slots req (next - rules.result_waiting_days) ≠ [])
    (hnone : firstEmptyExam (validSlots slots req (next - rules.result_waiting_days)) req
      = none)
    (hs : resp.status = .optimal ∨ resp.status = .feasible) :
    run_local_poc slots rules req next resp =
      .successMsg (objectiveValue (validSlots slots req (next - rules.result_waiting_days)) resp.sel)
        (result_schedule (validSlots slots req (next - rules.result_waiting_days)) resp.sel) := by
  obtain ⟨st, sel⟩ := resp
  rcases hs with hs | hs <;> cases hs <;>
    · unfold run_local_poc
      rw [if_neg (by simp [hne]), hnone]

/-! ## The claims -/

/-- C6: the candidate filter computes
`deadline = next_appointment_date − result_waiting_days` and returns
exactly the catalog slots whose exam type is required and whose date is
on or before the deadline — the embedded filter coincides with the
filter as the spec words it, and membership in its output is exactly
catalog membership plus the two conditions. -/
theorem candidate_filter_correct (slots : List Slot) (rules : Rules) (req : List String)
    (next : Int) :
    validSlots slots req (next - rules.result_waiting_days) =
      candidateFilterSpec slots req next rules.result_waiting_days ∧
    ∀ s : Slot, s ∈ validSlots slots req (next - rules.result_waiting_days) ↔
      s ∈ slots ∧ s.date ≤ next - rules.result_waiting_days ∧ s.exam ∈ req := by
  constructor
  · unfold validSlots candidateFilterSpec
    apply List.filter_congr
    intro s _
    rw [Bool.eq_iff_iff]
    simp [List.contains, List.elem_iff, and_comm]
  · intro s
    exact mem_validSlots

/-- C10: `minutes_to_time_str` renders `m` as the zero-padded decimal
digits of `m / 60` and of `m % 60` separated by a colon; it is total
and does not wrap around a 24-hour clock — for `m ≥ 1440` the hour
field is 24 or more, e.g. 1500 renders as `"25:00"`. -/
theorem minutes_to_time_str_spec :
    (∀ m : Nat, minutes_to_time_str m = pad2 (m / 60) ++ ":" ++ pad2 (m % 60)) ∧
    (∀ m : Nat, m < 6000 → (minutes_to_time_str m).data =
      [Nat.digitChar (m / 60 / 10), Nat.digitChar (m / 60 % 10), ':',
        Nat.digitChar (m % 60 / 10), Nat.digitChar (m % 60 % 10)]) ∧
    (∀ m : Nat, 1440 ≤ m → 24 ≤ m / 60) ∧
    minutes_to_time_str 1500 = "25:00" := by
  refine ⟨fun m => rfl, fun m hm => mtts_data m hm, fun m hm => ?_, by decide⟩
  omega

/-- C10 witness: the rendering evaluated at 1500 minutes. -/
theorem minutes_to_time_str_spec_witness :
    1500 < 6000 ∧
      (minutes_to_time_str 1500).data = ['2', '5', ':', '0', '0'] ∧ 24 ≤ 1500 / 60 :=
  ⟨by decide, minutes_to_time_str_spec.2.1 1500 (by decide),
    minutes_to_time_str_spec.2.2.1 1500 (by decide)⟩

/-- C1 (amended): every successful run's schedule has exactly one entry
per required exam type, and every entry's slot has a date on or before
the deadline and a required exam type.  (The availability flag is not
part of the statement: the code never consults it — see the
counterexample.) -/
theorem run_success_entries (slots : List Slot) (rules : Rules) (req : List String)
    (next : Int) (resp : SolverResponse) (obj : Nat) (sched : List Entry)
    (hok : SolverOk (validSlots slots req (next - rules.result_waiting_days)) rules req resp)
    (hrun : run_local_poc slots rules req next resp = .successMsg obj sched) :
    (∀ e ∈ req, sched.countP (fun en => en.Exam == e) = 1) ∧
    ∀ en ∈ sched, en.Exam ∈ req ∧ en.Date ≤ next - rules.result_waiting_days := by
  obtain ⟨hst, -, hsched, -⟩ := run_success_inv hrun
  have hfeas := solverOk_feasible hok hst
  subst hsched
  constructor
  · intro e he
    rw [countP_result_schedule]
    have h1 := (feasible_parts hfeas).1
    simpa using List.all_eq_true.mp h1 e he
  · intro en hen
    rcases mem_result_schedule.mp hen with ⟨s, hv, -, rfl⟩
    rcases mem_validSlots.mp hv with ⟨-, hd, hx⟩
    exact ⟨hx, hd⟩

/-- C1 witness: the three-exam instance runs to success and the
conclusions hold on its schedule. -/
theorem run_success_entries_witness :
    (∀ e ∈ wReq,
      ([⟨"A", 10, "09:00", "09:30"⟩, ⟨"B", 10, "10:00", "11:00"⟩,
          ⟨"C", 11, "09:00", "09:30"⟩] : List Entry).countP (fun en => en.Exam == e) = 1) ∧
    ∀ en ∈ ([⟨"A", 10, "09:00", "09:30"⟩, ⟨"B", 10, "10:00", "11:00"⟩,
        ⟨"C", 11, "09:00", "09:30"⟩] : List Entry),
      en.Exam ∈ wReq ∧ en.Date ≤ 13 - wRules.result_waiting_days :=
  run_success_entries wSlots wRules wReq 13 wResp 2 _
    (by simp only [wResp, SolverOk]; decide) (by decide)

/-- C1 counterexample: a contract-respecting run succeeds although its
only slot — hence the scheduled one — is marked unavailable, so "each
entry's slot was marked available" fails on the code. -/
theorem run_success_entries_cex :
    SolverOk (validSlots c1Slots ["A"] (0 - c1Rules.result_waiting_days)) c1Rules ["A"] c1Resp ∧
    run_local_poc c1Slots c1Rules ["A"] 0 c1Resp =
      .successMsg 1 [⟨"A", 0, "09:00", "09:30"⟩] ∧
    c1Slots.all (fun s => !s.is_available) = true :=
  ⟨by simp only [c1Resp, SolverOk]; decide, by decide, by decide⟩

/-- C2 (amended): on success the reported objective equals the number of
distinct dates among the schedule's entries; and when the solver status
is `OPTIMAL` no feasible alternative assignment achieves a strictly
smaller objective value.  (Under the `FEASIBLE` status the code also
reports success, but minimality is then not guaranteed — see the
counterexample.) -/
theorem run_success_objective (slots : List Slot) (rules : Rules) (req : List String)
    (next : Int) (resp : SolverResponse) (obj : Nat) (sched : List Entry)
    (hok : SolverOk (validSlots slots req (next - rules.result_waiting_days)) rules req resp)
    (hrun : run_local_poc slots rules req next resp = .successMsg obj sched) :
    obj = ((sched.map (fun en => en.Date)).dedup).length ∧
    (resp.status = .optimal →
      ∀ sel', Feasible (validSlots slots req (next - rules.result_waiting_days)) rules req sel' →
        obj ≤ objectiveValue (validSlots slots req (next - rules.result_waiting_days)) sel') := by
  obtain ⟨-, hobj, hsched, -⟩ := run_success_inv hrun
  subst hsched
  subst hobj
  refine ⟨objective_eq_distinct_dates _ _, fun hopt sel' hsel' => ?_⟩
  obtain ⟨st, sel⟩ := resp
  cases st with
  | optimal => exact hok.2 sel' hsel'
  | feasible => exact absurd hopt (by simp)
  | infeasible => exact absurd hopt (by simp)
  | unknown => exact absurd hopt (by simp)

/-- C2 witness: the three-exam instance reports objective 2, the number
of distinct dates of its schedule. -/
theorem run_success_objective_witness :
    (2 : Nat) =
      ((([⟨"A", 10, "09:00", "09:30"⟩, ⟨"B", 10, "10:00", "11:00"⟩,
          ⟨"C", 11, "09:00", "09:30"⟩] : List Entry).map (fun en => en.Date)).dedup).length :=
  (run_success_objective wSlots wRules wReq 13 wResp 2 _
    (by simp only [wResp, SolverOk]; decide) (by decide)).1

/-- C2 counterexample: a contract-respecting `FEASIBLE` response makes
the run succeed with objective 2 although a feasible alternative
assignment achieves objective 1, so "no alternative assignment …
achieves a strictly smaller number of distinct dates" fails on the
code for successful runs. -/
theorem run_success_objective_cex :
    SolverOk (validSlots c2Slots ["A", "B"] (1 - c2Rules.result_waiting_days)) c2Rules
      ["A", "B"] c2Resp ∧
    run_local_poc c2Slots c2Rules ["A", "B"] 1 c2Resp =
      .successMsg 2 [⟨"A", 0, "09:00", "09:30"⟩, ⟨"B", 1, "10:00", "10:30"⟩] ∧
    Feasible (validSlots c2Slots ["A", "B"] (1 - c2Rules.result_waiting_days)) c2Rules
      ["A", "B"] c2Alt ∧
    objectiveValue (validSlots c2Slots ["A", "B"] (1 - c2Rules.result_waiting_days)) c2Alt = 1 ∧
    (1 : Nat) < 2 :=
  ⟨by simp only [c2Resp, SolverOk]; decide, by decide, by decide, by decide, by decide⟩

/-- C3: for every `sequence_and_gap` rule with both exams required, any
pair of chosen candidate slots respects the same-day gap
(`pre.end + gap ≤ succ.start` whenever the dates coincide) and the date
order (the predecessor's date is never later); and a concrete run shows
that a (predecessor, successor) slot pair on distinct ordered dates is
left unconstrained by the gap — it can be (and here is) chosen although
`pre.end + gap > succ.start`. -/
theorem run_seq_gap (slots : List Slot) (rules : Rules) (req : List String)
    (next : Int) (resp : SolverResponse) (obj : Nat) (sched : List Entry)
    (hok : SolverOk (validSlots slots req (next - rules.result_waiting_days)) rules req resp)
    (hrun : run_local_poc slots rules req next resp = .successMsg obj sched) :
    (∀ r ∈ rules.sequence_and_gap, r.pre ∈ req → r.post ∈ req →
      ∀ ps qs : Slot,
        ps ∈ validSlots slots req (next - rules.result_waiting_days) →
        qs ∈ validSlots slots req (next - rules.result_waiting_days) →
        ps.exam = r.pre → qs.exam = r.post →
        resp.sel ps.id = true → resp.sel qs.id = true →
        mkEntry ps ∈ sched ∧ mkEntry qs ∈ sched ∧
          (ps.date = qs.date → (ps.end_min : Int) + r.min_gap_minutes ≤ (qs.start_min : Int)) ∧
          ps.date ≤ qs.date) ∧
    (Feasible (validSlots c3Slots ["A", "B"] (6 - c3Rules.result_waiting_days)) c3Rules
        ["A", "B"] c3Resp.sel ∧
      run_local_poc c3Slots c3Rules ["A", "B"] 6 c3Resp =
        .successMsg 2 [⟨"A", 5, "09:00", "10:00"⟩, ⟨"B", 6, "09:00", "09:30"⟩] ∧
      c3Resp.sel 1 = true ∧ c3Resp.sel 2 = true ∧
      (600 : Int) + 120 > 540 ∧ (5 : Int) < 6) := by
  constructor
  · obtain ⟨hst, -, hsched, -⟩ := run_success_inv hrun
    have hfeas := solverOk_feasible hok hst
    subst hsched
    intro r hr hm1 hm2 ps qs hpv hqv hpx hqx hpsel hqsel
    have h := seqGap_of_feasible hfeas r hr hm1 hm2 ps (mem_examSlots.mpr ⟨hpv, hpx⟩)
      qs (mem_examSlots.mpr ⟨hqv, hqx⟩) hpsel hqsel
    exact ⟨mem_result_schedule.mpr ⟨ps, hpv, hpsel, rfl⟩,
      mem_result_schedule.mpr ⟨qs, hqv, hqsel, rfl⟩, h.1, h.2⟩
  · exact ⟨by decide, by decide, by decide, by decide, by decide, by decide⟩

/-- C3 witness: in the three-exam run, the chosen slots of the rule
`(A, B, 30)` fall on the same date and meet the gap and the order. -/
theorem run_seq_gap_witness :
    mkEntry ⟨1, "A", 10, 540, 570, true⟩ ∈ wSched ∧
    ((570 : Nat) : Int) + 30 ≤ ((600 : Nat) : Int) ∧ (10 : Int) ≤ 10 := by
  have h := (run_seq_gap wSlots wRules wReq 13 wResp 2 wSched
      (by simp only [wResp, SolverOk]; decide) (by decide)).1
    ⟨"A", "B", 30⟩ (by decide) (by decide) (by decide)
    ⟨1, "A", 10, 540, 570, true⟩ ⟨2, "B", 10, 600, 660, true⟩
    (by decide) (by decide) rfl rfl (by decide) (by decide)
  exact ⟨h.1, h.2.2.1 rfl, h.2.2.2⟩

/-- C4: for every `must_same_day` group with at least two required
members, all schedule entries of that group's exams share one date
(the model pairs the first required member with every other member and
forbids differing-date pairs, which with the exactly-one constraint
forces equal dates). -/
theorem run_must_same_day (slots : List Slot) (rules : Rules) (req : List String)
    (next : Int) (resp : SolverResponse) (obj : Nat) (sched : List Entry)
    (hok : SolverOk (validSlots slots req (next - rules.result_waiting_days)) rules req resp)
    (hrun : run_local_poc slots rules req next resp = .successMsg obj sched) :
    ∀ g ∈ rules.must_same_day,
      2 ≤ (g.filter (fun e => req.contains e)).length →
      ∀ en1 ∈ sched, ∀ en2 ∈ sched, en1.Exam ∈ g → en2.Exam ∈ g →
        en1.Date = en2.Date := by
  obtain ⟨hst, -, hsched, -⟩ := run_success_inv hrun
  have hfeas := solverOk_feasible hok hst
  subst hsched
  intro g hg hlen en1 h1 en2 h2 hx1 hx2
  rcases hl : g.filter (fun e => req.contains e) with _ | ⟨ex1, l2⟩
  · rw [hl] at hlen
    simp at hlen
  rcases l2 with _ | ⟨ex2, rest⟩
  · rw [hl] at hlen
    simp at hlen
  have hex1g : ex1 ∈ g.filter (fun e => req.contains e) := by
    rw [hl]
    exact List.mem_cons_self _ _
  have hex1req : ex1 ∈ req := by
    have := (List.mem_filter.mp hex1g).2
    simpa [List.elem_iff] using this
  obtain ⟨sRef, ⟨hRv, hRx, hRsel⟩, hRuniq⟩ := exactlyOne_unique hfeas hex1req
  have key : ∀ en ∈ result_schedule (validSlots slots req (next - rules.result_waiting_days))
      resp.sel, en.Exam ∈ g → en.Date = sRef.date := by
    intro en hen hing
    rcases mem_result_schedule.mp hen with ⟨s, hv, hsel, rfl⟩
    have hsreq : s.exam ∈ req := (mem_validSlots.mp hv).2.2
    have hsfilter : s.exam ∈ g.filter (fun e => req.contains e) := by
      rw [List.mem_filter]
      exact ⟨hing, by simpa [List.elem_iff] using hsreq⟩
    rw [hl] at hsfilter
    rcases List.mem_cons.mp hsfilter with heq | htail
    · have := hRuniq s hv heq hsel
      rw [show (mkEntry s).Date = s.date from rfl, this]
    · have := must_of_feasible hfeas g hg ex1 ex2 rest hl s.exam htail sRef
        (mem_examSlots.mpr ⟨hRv, hRx⟩) s (mem_examSlots.mpr ⟨hv, rfl⟩) hRsel hsel
      exact this.symm
  rw [key en1 h1 hx1, key en2 h2 hx2]

/-- C4 witness: in the three-exam run the group `[A, B]` entries share
date 10. -/
theorem run_must_same_day_witness :
    (⟨"A", 10, "09:00", "09:30"⟩ : Entry).Date = (⟨"B", 10, "10:00", "11:00"⟩ : Entry).Date :=
  run_must_same_day wSlots wRules wReq 13 wResp 2 wSched
    (by simp only [wResp, SolverOk]; decide) (by decide)
    ["A", "B"] (by decide) (by decide)
    ⟨"A", 10, "09:00", "09:30"⟩ (by decide) ⟨"B", 10, "10:00", "11:00"⟩ (by decide)
    (by decide) (by decide)

/-- C5: for every `cannot_same_day` pair with both exams required, no
two schedule entries of those exam types share a date. -/
theorem run_cannot_same_day (slots : List Slot) (rules : Rules) (req : List String)
    (next : Int) (resp : SolverResponse) (obj : Nat) (sched : List Entry)
    (hok : SolverOk (validSlots slots req (next - rules.result_waiting_days)) rules req resp)
    (hrun : run_local_poc slots rules req next resp = .successMsg obj sched) :
    ∀ p ∈ rules.cannot_same_day, p.1 ∈ req → p.2 ∈ req →
      ∀ en1 ∈ sched, ∀ en2 ∈ sched, en1.Exam = p.1 → en2.Exam = p.2 →
        en1.Date ≠ en2.Date := by
  obtain ⟨hst, -, hsched, -⟩ := run_success_inv hrun
  have hfeas := solverOk_feasible hok hst
  subst hsched
  intro p hp hm1 hm2 en1 h1 en2 h2 hx1 hx2 hdate
  rcases mem_result_schedule.mp h1 with ⟨s1, hv1, hsel1, rfl⟩
  rcases mem_result_schedule.mp h2 with ⟨s2, hv2, hsel2, rfl⟩
  exact cannot_of_feasible hfeas p hp hm1 hm2 s1
    (mem_examSlots.mpr ⟨hv1, hx1⟩) s2 (mem_examSlots.mpr ⟨hv2, hx2⟩) hdate ⟨hsel1, hsel2⟩

/-- C5 witness: in the three-exam run the `cannot_same_day` pair
`(A, C)` entries have different dates. -/
theorem run_cannot_same_day_witness :
    (⟨"A", 10, "09:00", "09:30"⟩ : Entry).Date ≠ (⟨"C", 11, "09:00", "09:30"⟩ : Entry).Date :=
  run_cannot_same_day wSlots wRules wReq 13 wResp 2 wSched
    (by simp only [wResp, SolverOk]; decide) (by decide)
    ("A", "C") (by decide) (by decide) (by decide)
    ⟨"A", 10, "09:00", "09:30"⟩ (by decide) ⟨"C", 11, "09:00", "09:30"⟩ (by decide)
    rfl rfl

/-- C7 (amended): when the candidate filter output is nonempty and some
required exam type has zero candidate slots, the run aborts with the
per-exam error for the first such exam type in request order, whatever
the solver would have answered (so the solver is never consulted).
(When the filter output is empty the no-candidate failure is reported
instead — see the counterexample.) -/
theorem unsat_exam_aborts (slots : List Slot) (rules : Rules) (req : List String)
    (next : Int) (e : String)
    (hne : validSlots slots req (next - rules.result_waiting_days) ≠ [])
    (he : e ∈ req)
    (hempty : examSlots (validSlots slots req (next - rules.result_waiting_days)) e = []) :
    ∃ e0, e0 ∈ req ∧
      examSlots (validSlots slots req (next - rules.result_waiting_days)) e0 = [] ∧
      firstEmptyExam (validSlots slots req (next - rules.result_waiting_days)) req = some e0 ∧
      ∀ resp, run_local_poc slots rules req next resp = .examErrorMsg e0 := by
  have hsome : (firstEmptyExam (validSlots slots req (next - rules.result_waiting_days))
      req).isSome := by
    rw [firstEmptyExam, List.find?_isSome]
    exact ⟨e, he, by simp [hempty]⟩
  obtain ⟨e0, he0⟩ := Option.isSome_iff_exists.mp hsome
  refine ⟨e0, List.mem_of_find?_eq_some he0, ?_, he0,
    fun resp => run_of_firstEmpty hne he0 resp⟩
  have := List.find?_some he0
  simpa using this

/-- C7 witness: with a catalog that has only exam-A slots and the
request `[A, B]`, the run aborts with the error for `B`. -/
theorem unsat_exam_aborts_witness :
    run_local_poc c7bSlots c7Rules c7bReq 0 c7Resp = .examErrorMsg "B" := by
  obtain ⟨e0, -, -, hfind, hrun⟩ :=
    unsat_exam_aborts c7bSlots c7Rules c7bReq 0 "B" (by decide) (by decide) (by decide)
  have he0 : e0 = "B" := by
    have h2 : firstEmptyExam (validSlots c7bSlots c7bReq (0 - c7Rules.result_waiting_days))
        c7bReq = some "B" := by decide
    rw [h2] at hfind
    exact (Option.some.inj hfind).symm
  exact he0 ▸ hrun c7Resp

/-- C7 counterexample: a required exam type (`A`) with zero candidate
slots does not always yield the per-exam `UnsatisfiableExam` report —
when the whole filter output is empty the run reports the
no-candidate-slots failure instead. -/
theorem unsat_exam_aborts_cex :
    "A" ∈ (["A"] : List String) ∧
    examSlots (validSlots c7Slots ["A"] (0 - c7Rules.result_waiting_days)) "A" = [] ∧
    run_local_poc c7Slots c7Rules ["A"] 0 c7Resp = .noCandidateSlotsMsg ∧
    Outcome.noCandidateSlotsMsg ≠ Outcome.examErrorMsg "A" :=
  ⟨by decide, by decide, by decide, by decide⟩

/-- C8 (amended): each failure is terminal and reported as a message,
and the no-candidate and per-exam failures are distinguished from each
other and from everything else by exact characterizations; but the two
solver failure statuses `INFEASIBLE` and `UNKNOWN` are collapsed into
one identical generic failure message rather than surfaced
distinctly. -/
theorem run_failure_reporting (slots : List Slot) (rules : Rules) (req : List String)
    (next : Int) (resp : SolverResponse) :
    (run_local_poc slots rules req next resp = .noCandidateSlotsMsg ↔
      validSlots slots req (next - rules.result_waiting_days) = []) ∧
    (∀ e0, run_local_poc slots rules req next resp = .examErrorMsg e0 ↔
      validSlots slots req (next - rules.result_waiting_days) ≠ [] ∧
        firstEmptyExam (validSlots slots req (next - rules.result_waiting_days)) req
          = some e0) ∧
    ((resp.status = .infeasible ∨ resp.status = .unknown) →
      validSlots slots req (next - rules.result_waiting_days) ≠ [] →
      firstEmptyExam (validSlots slots req (next - rules.result_waiting_days)) req = none →
      run_local_poc slots rules req next resp = .solverFailMsg) := by
  by_cases hv : validSlots slots req (next - rules.result_waiting_days) = []
  · rw [run_noCandidates resp hv]
    refine ⟨by simp [hv], fun e0 => ⟨by simp, fun h => absurd hv h.1⟩, fun _ hne => absurd hv hne⟩
  · rcases hfe : firstEmptyExam (validSlots slots req (next - rules.result_waiting_days)) req
      with _ | e1
    · rcases hst : resp.status with h | h | h | h
      · rw [run_success_eq hv hfe (Or.inl hst)]
        exact ⟨by simp [hv], fun e0 => ⟨by simp, by simp [hfe]⟩, by simp [hst]⟩
      · rw [run_success_eq hv hfe (Or.inr hst)]
        exact ⟨by simp [hv], fun e0 => ⟨by simp, by simp [hfe]⟩, by simp [hst]⟩
      · rw [run_solverFail hv hfe (Or.inl hst)]
        exact ⟨by simp [hv], fun e0 => ⟨by simp, by simp [hfe]⟩, fun _ _ _ => rfl⟩
      · rw [run_solverFail hv hfe (Or.inr hst)]
        exact ⟨by simp [hv], fun e0 => ⟨by simp, by simp [hfe]⟩, fun _ _ _ => rfl⟩
    · rw [run_of_firstEmpty hv hfe resp]
      refine ⟨by simp [hv], fun e0 => ⟨fun h => ⟨hv, ?_⟩, fun h => ?_⟩, fun _ _ hn => ?_⟩
      · injection h with h1
        subst h1
        rfl
      · rcases h with ⟨-, h2⟩
        injection h2 with h2
        rw [h2]
      · exact absurd hn (by simp)

/-- C8 witness: with candidates present and no empty exam, the
`UNKNOWN` status yields the generic failure message. -/
theorem run_failure_reporting_witness :
    run_local_poc c8Slots c8Rules c8Req 0 c8RespUnk = .solverFailMsg :=
  (run_failure_reporting c8Slots c8Rules c8Req 0 c8RespUnk).2.2
    (Or.inr rfl) (by decide) (by decide)

/-- The two-slot `cannot_same_day` instance is genuinely infeasible: the
only candidate of each required exam sits on the same date. -/
theorem c8_infeasible :
    ∀ sel, ¬ Feasible (validSlots c8Slots c8Req (0 - c8Rules.result_waiting_days))
      c8Rules c8Req sel := by
  intro sel hf
  obtain ⟨sA, ⟨hAv, hAx, hAsel⟩, -⟩ := exactlyOne_unique hf (show "A" ∈ c8Req by decide)
  obtain ⟨sB, ⟨hBv, hBx, hBsel⟩, -⟩ := exactlyOne_unique hf (show "B" ∈ c8Req by decide)
  have hvsEq : validSlots c8Slots c8Req (0 - c8Rules.result_waiting_days) =
      [⟨1, "A", 0, 540, 570, true⟩, ⟨2, "B", 0, 600, 630, true⟩] := by decide
  have hsA : sA = ⟨1, "A", 0, 540, 570, true⟩ := by
    rw [hvsEq] at hAv
    rcases List.mem_cons.mp hAv with h | h
    · exact h
    · rcases List.mem_cons.mp h with h' | h'
      · rw [h'] at hAx
        exact absurd hAx (by decide)
      · exact absurd h' (by simp)
  have hsB : sB = ⟨2, "B", 0, 600, 630, true⟩ := by
    rw [hvsEq] at hBv
    rcases List.mem_cons.mp hBv with h | h
    · rw [h] at hBx
      exact absurd hBx (by decide)
    · rcases List.mem_cons.mp h with h' | h'
      · exact h'
      · exact absurd h' (by simp)
  exact cannot_of_feasible hf ("A", "B") (by decide) (by decide) (by decide)
    sA (mem_examSlots.mpr ⟨hAv, hAx⟩) sB (mem_examSlots.mpr ⟨hBv, hBx⟩)
    (by rw [hsA, hsB]) ⟨hAsel, hBsel⟩

/-- C8 counterexample: on an infeasible instance, a contract-respecting
`INFEASIBLE` response and a contract-respecting `UNKNOWN` response
produce the *same* observable outcome — the single generic failure
message — so a solver `Unknown` outcome is not reported distinctly from
a proven `Infeasible` outcome. -/
theorem run_failure_reporting_cex :
    SolverOk (validSlots c8Slots c8Req (0 - c8Rules.result_waiting_days)) c8Rules c8Req
      c8RespInf ∧
    SolverOk (validSlots c8Slots c8Req (0 - c8Rules.result_waiting_days)) c8Rules c8Req
      c8RespUnk ∧
    run_local_poc c8Slots c8Rules c8Req 0 c8RespInf = .solverFailMsg ∧
    run_local_poc c8Slots c8Rules c8Req 0 c8RespUnk = .solverFailMsg ∧
    run_local_poc c8Slots c8Rules c8Req 0 c8RespInf =
      run_local_poc c8Slots c8Rules c8Req 0 c8RespUnk :=
  ⟨c8_infeasible, trivial, by decide, by decide, by decide⟩

/-- C9: on success the itinerary is sorted ascending by the key
(date, rendered start time); each entry's start and end strings are the
`HH:MM` renderings of its slot's integer minutes; and on minute values
below 1440 (times of day) the rendered-string order coincides with the
numeric minute order, so the schedule is sorted by date, then by start
time. -/
theorem run_schedule_sorted (slots : List Slot) (rules : Rules) (req : List String)
    (next : Int) (resp : SolverResponse) (obj : Nat) (sched : List Entry)
    (hrun : run_local_poc slots rules req next resp = .successMsg obj sched) :
    List.Sorted entryRel sched ∧
    (∀ en ∈ sched, ∃ s, s ∈ validSlots slots req (next - rules.result_waiting_days) ∧
      resp.sel s.id = true ∧ en = mkEntry s) ∧
    (∀ a : Nat, a < 1440 → ∀ b : Nat, b < 1440 →
      (charListLeB (minutes_to_time_str a).data (minutes_to_time_str b).data = true ↔
        a ≤ b)) := by
  obtain ⟨-, -, hsched, -⟩ := run_success_inv hrun
  subst hsched
  exact ⟨result_schedule_sorted _ _, fun en hen => mem_result_schedule.mp hen,
    fun a ha b hb => charListLeB_mtts_iff a b (by omega) (by omega)⟩

/-- C9 witness: the three-exam schedule is sorted, and the rendered
order of 540 and 600 minutes matches the numeric order. -/
theorem run_schedule_sorted_witness :
    List.Sorted entryRel wSched ∧
    (charListLeB (minutes_to_time_str 540).data (minutes_to_time_str 600).data = true ↔
      540 ≤ 600) :=
  ⟨(run_schedule_sorted wSlots wRules wReq 13 wResp 2 wSched (by decide)).1,
    (run_schedule_sorted wSlots wRules wReq 13 wResp 2 wSched (by decide)).2.2
      540 (by decide) 600 (by decide)⟩

end EzLaptop
